import Mathlib

/-!
Verification of the bibleai frontend (Next.js client) against its
natural-language specification.

The TypeScript sources under `src/frontend` are shallowly embedded as Lean
definitions: React state updates become explicit state-transition functions,
`fetch` replies become explicit parameters, JS strings become Lean `String`
(with JS-specific whitespace/trim semantics modelled explicitly), and the
regular-expression replacements of `ChatMessage.tsx` become explicit
character-list scanners with the same left-to-right, lazy/greedy semantics.

The backend Retrieval & Conversation Orchestration Engine is not part of the
repository sources; the parts of it that claims depend on (Session Manager,
Response Assembler source attachment) are modelled from the spec and marked
`Modelled from the spec:` in their doc comments.
-/

/-! ## Transport data model, from `src/frontend/src/lib/api.ts` and the
`Message`/`UserPreferences` types (`src/unnamed/part_000`). -/

/-- `UserPreferences` from the frontend types: two translation choices and an
optional (nullable) denomination. -/
structure UserPreferences where
  translation_kr : String
  translation_en : String
  denomination : Option String
  deriving DecidableEq

/-- The `retrieval_mode` union type `"rag" | "conversational"` from
`api.ts`/the `Message` type, as an enumeration. -/
inductive RetrievalMode where
  | rag
  | conversational
  deriving DecidableEq

/-- The literal string value a `RetrievalMode` has on the wire (the TS union
type is a union of exactly these two string literals). -/
def RetrievalMode.wire : RetrievalMode → String
  | .rag => "rag"
  | .conversational => "conversational"

/-- `Source` from `api.ts`.  The JS `number` fields `chapter`/`verse` are
integers in practice (verse identities); `similarity` is modelled as a
rational. -/
structure Source where
  text : String
  reference : String
  reference_kr : String
  translation : String
  book : String
  book_kr : String
  chapter : Nat
  verse : Nat
  similarity : Option Rat
  deriving DecidableEq

/-- `ChatRequest` from `api.ts`: `session_id` is `string | null`. -/
structure ChatRequest where
  message : String
  session_id : Option String
  preferences : UserPreferences
  deriving DecidableEq

/-- Token usage sub-object of `ChatResponse`. -/
structure Usage where
  input_tokens : Nat
  output_tokens : Nat
  deriving DecidableEq

/-- `ChatResponse` from `api.ts`. -/
structure ChatResponse where
  response : String
  session_id : String
  language : String
  sources : List Source
  retrieval_mode : RetrievalMode
  model : String
  usage : Usage
  deriving DecidableEq

/-- The reply of the `fetch` call inside `sendMessage`, as seen by the code:
either an ok response whose JSON body is a `ChatResponse`, or a non-ok
response with a status code and a body text (`detail`). -/
inductive HttpReply where
  | ok (body : ChatResponse)
  | err (status : Nat) (detail : String)
  deriving DecidableEq

/-- `sendMessage` from `api.ts`: on a non-ok reply it throws
`Error("Server error ${status}: ${detail}")`; on an ok reply it returns the
parsed body.  The thrown error is modelled as `Except.error` carrying the
error message. -/
def sendMessage (_payload : ChatRequest) (reply : HttpReply) :
    Except String ChatResponse :=
  match reply with
  | .ok body => .ok body
  | .err status detail =>
      .error ("Server error " ++ toString status ++ ": " ++ detail)

/-- `clearSession` from `api.ts`: it awaits the DELETE fetch and ignores the
reply entirely (no `response.ok` check, no status check), so whatever status
the server answers with — including 404 for a session that does not exist —
the function returns normally.  The server's reply is the `(status, okFlag)`
pair the ignored `Response` would carry. -/
def clearSession (_sessionId : String) (_status : Nat) (_okFlag : Bool) :
    Except String Unit :=
  Except.ok ()

/-! ## JS string semantics helpers -/

/-- The character class matched by JS `\s` (and removed by JS
`String.prototype.trim`): ASCII whitespace, NBSP, and the Unicode space
separators and line terminators. -/
def jsWhitespace (c : Char) : Bool :=
  c = ' ' || c = '\t' || c = '\n' || c = '\r' || c = '\x0b' || c = '\x0c' ||
  c = ' ' || c.toNat = 0x1680 ||
  (0x2000 ≤ c.toNat && c.toNat ≤ 0x200a) ||
  c.toNat = 0x2028 || c.toNat = 0x2029 || c.toNat = 0x202f ||
  c.toNat = 0x205f || c.toNat = 0x3000 || c.toNat = 0xfeff

/-- JS `text.trim()`: strip `jsWhitespace` characters from both ends. -/
def jsTrim (s : String) : String :=
  ⟨((s.data.dropWhile jsWhitespace).reverse.dropWhile jsWhitespace).reverse⟩

/-- Substring containment on character lists (JS `String.includes`). -/
def listContains (pat : List Char) : List Char → Bool
  | [] => pat.isEmpty
  | c :: rest => pat.isPrefixOf (c :: rest) || listContains pat rest

/-- JS `s.includes(pat)`. -/
def strIncludes (s pat : String) : Bool :=
  listContains pat.data s.data

/-! ## Client chat state, from `src/frontend/src/app/page.tsx` -/

/-- Message role union `"user" | "assistant"`. -/
inductive Role where
  | user
  | assistant
  deriving DecidableEq

/-- The `Message` type of the frontend.  `timestamp` (a JS `Date`) is
modelled as a Nat tick. -/
structure Message where
  id : String
  role : Role
  content : String
  timestamp : Nat
  sources : Option (List Source) := none
  retrieval_mode : Option RetrievalMode := none
  deriving DecidableEq

/-- The React state of the `Home` component relevant to the chat logic. -/
structure ClientState where
  messages : List Message
  isLoading : Bool
  sessionId : Option String
  preferences : UserPreferences
  error : Option String
  deriving DecidableEq

/-- The initial `useState` values of `Home`. -/
def initialClientState : ClientState :=
  { messages := []
    isLoading := false
    sessionId := none
    preferences :=
      { translation_kr := "개역한글", translation_en := "ESV", denomination := none }
    error := none }

/-- The user message appended by `handleSend` (content is the trimmed
text). -/
def userMessageOf (content uid : String) (t : Nat) : Message :=
  { id := uid, role := .user, content := content, timestamp := t }

/-- The assistant message appended by `handleSend` on success. -/
def assistantMessageOf (resp : ChatResponse) (aid : String) (t : Nat) : Message :=
  { id := aid, role := .assistant, content := resp.response, timestamp := t
    sources := some resp.sources, retrieval_mode := some resp.retrieval_mode }

/-- The error text computed in the `catch` block of `handleSend`. -/
def displayError (msg : String) : String :=
  if strIncludes msg "Failed to fetch" then
    "서버에 연결할 수 없습니다. 백엔드를 실행해주세요.\nCannot connect to server. Please start the backend."
  else
    "오류가 발생했습니다. 다시 시도해주세요.\n" ++ msg

/-- The synchronous prefix of `handleSend` in `page.tsx`, up to the point the
network request is issued: the guard `if (!text.trim() || isLoading) return;`,
then `setError(null)`, appending the user message, `setIsLoading(true)`, and
building the `ChatRequest`.  Returns the new state and the request that was
issued, if any.  `uid` is the `crypto.randomUUID()` value and `t1` the
`new Date()` tick. -/
def startSend (st : ClientState) (text uid : String) (t1 : Nat) :
    ClientState × Option ChatRequest :=
  if jsTrim text = "" ∨ st.isLoading then (st, none)
  else
    ({ st with
        error := none
        messages := st.messages ++ [userMessageOf (jsTrim text) uid t1]
        isLoading := true },
      some { message := jsTrim text, session_id := st.sessionId
             preferences := st.preferences })

/-- The continuation of `handleSend` once `sendMessage` has settled: on
success, store the returned session id, append the assistant message and
clear the loading flag; on failure, store the display error and clear the
loading flag (the `finally` block). -/
def finishSend (st : ClientState) (outcome : Except String ChatResponse)
    (aid : String) (t2 : Nat) : ClientState :=
  match outcome with
  | .ok resp =>
      { st with
          sessionId := some resp.session_id
          messages := st.messages ++ [assistantMessageOf resp aid t2]
          isLoading := false }
  | .error e =>
      { st with error := some (displayError e), isLoading := false }

/-- The result of one `handleSend` invocation: the final state and the
request that was issued, if any. -/
structure SendResult where
  state : ClientState
  request : Option ChatRequest
  deriving DecidableEq

/-- One complete run of `handleSend` in `page.tsx`, with the server's reply
to the issued request supplied as a parameter. -/
def handleSend (st : ClientState) (text : String) (reply : HttpReply)
    (uid aid : String) (t1 t2 : Nat) : SendResult :=
  match startSend st text uid t1 with
  | (st1, none) => ⟨st1, none⟩
  | (st1, some req) => ⟨finishSend st1 (sendMessage req reply) aid t2, some req⟩

/-- The guard of `ChatInput.handleSend` (`src/unnamed/part_000`): trim the
textarea value; if it is empty or the input is disabled, do nothing,
otherwise hand the trimmed value to `onSend`. -/
def chatInputSend (raw : String) (disabled : Bool) : Option String :=
  if jsTrim raw = "" ∨ disabled then none else some (jsTrim raw)

/-- Whether `ChatMessage` renders the source chip list for a message:
`message.sources && message.sources.length > 0` (`ChatMessage.tsx`). -/
def rendersSourceList (m : Message) : Bool :=
  match m.sources with
  | none => false
  | some l => decide (0 < l.length)

/-! ## Spec-modelled engine parts (Session Manager, Response Assembler)

The backend engine is not among the repository sources; only its frontend
callers are.  The definitions below are modelled from the spec (§3, §4.6,
§4.7) and are the authority only where the spec is. -/

/-- Modelled from the spec: a `Turn` of a Session (§3) — role, content,
optional sources, retrieval mode used, timestamp.  The backend Session
Manager holding these is missing from the sources. -/
structure Turn where
  role : Role
  content : String
  sources : List Source
  mode : RetrievalMode
  timestamp : Nat
  deriving DecidableEq

/-- Modelled from the spec: the Session Manager's store of per-conversation
state (§4.6), missing from the sources.  Storage-agnostic per §6: session ids
are opaque (here `Nat`), `sessions` maps an id to its ordered Turn list, and
`nextId` is the fresh-id supply. -/
structure SessionStore where
  sessions : Nat → Option (List Turn)
  nextId : Nat

/-- The empty store at process start. -/
def emptyStore : SessionStore :=
  { sessions := fun _ => none, nextId := 0 }

/-- Invariant of the fresh-id supply: every allocated id is below `nextId`. -/
def StoreInv (st : SessionStore) : Prop :=
  ∀ i, st.nextId ≤ i → st.sessions i = none

/-- Modelled from the spec: `getOrCreate(sessionId?) -> Session` (§4.6),
missing from the sources — if the id is omitted or unknown, allocate a new
Session with a fresh id and empty history; never an error. -/
def getOrCreate (st : SessionStore) (sid : Option Nat) : Nat × SessionStore :=
  let fresh : Nat × SessionStore :=
    (st.nextId,
      { sessions := fun j => if j = st.nextId then some [] else st.sessions j
        nextId := st.nextId + 1 })
  match sid with
  | some i =>
      match st.sessions i with
      | some _ => (i, st)
      | none => fresh
  | none => fresh

/-- Modelled from the spec: `history(sessionId) -> ordered Turns` (§4.6),
missing from the sources; an absent session has empty history. -/
def history (st : SessionStore) (i : Nat) : List Turn :=
  (st.sessions i).getD []

/-- Modelled from the spec: `appendTurn(sessionId, Turn)` (§4.6), missing
from the sources — history is append-only. -/
def appendTurn (st : SessionStore) (i : Nat) (t : Turn) : SessionStore :=
  { st with sessions := fun j => if j = i then some (history st i ++ [t]) else st.sessions j }

/-- Modelled from the spec: `clear(sessionId)` (§4.6), missing from the
sources — deletes the session; idempotent and total, succeeding even when
the session does not exist. -/
def clear (st : SessionStore) (i : Nat) : SessionStore :=
  { st with sessions := fun j => if j = i then none else st.sessions j }

/-- Modelled from the spec: the Response Assembler's source attachment
(§4.7), missing from the sources — in `conversational` (ungrounded) mode no
source metadata is attached; in `rag` (grounded) mode the retrieved sources
are attached. -/
def attachedSources (mode : RetrievalMode) (retrieved : List Source) : List Source :=
  match mode with
  | .conversational => []
  | .rag => retrieved

/-- What one engine chat call returns to the transport layer, plus the
history that was put into the generation request for that turn. -/
structure EngineResult where
  sessionId : Nat
  text : String
  sources : List Source
  mode : RetrievalMode
  promptHistory : List Turn
  deriving DecidableEq

/-- Modelled from the spec: one chat exchange through the engine core
(§2 control flow, §4.6, §4.7), missing from the sources — resolve the
session, read its prior turns for the generation request, and record the
user turn then the assistant turn.  The retrieval outcome (`mode`,
`retrieved`, `answer`) is supplied by the retrieval pipeline, which no claim
here depends on internally. -/
def engineChat (store : SessionStore) (sid : Option Nat)
    (userText answer : String) (mode : RetrievalMode) (retrieved : List Source)
    (tu ta : Nat) : EngineResult × SessionStore :=
  let g := getOrCreate store sid
  let prior := history g.2 g.1
  let srcs := attachedSources mode retrieved
  let st2 := appendTurn g.2 g.1
    { role := .user, content := userText, sources := [], mode := mode, timestamp := tu }
  let st3 := appendTurn st2 g.1
    { role := .assistant, content := answer, sources := srcs, mode := mode, timestamp := ta }
  ({ sessionId := g.1, text := answer, sources := srcs, mode := mode
     promptHistory := prior }, st3)

/-! ## `formatContent` from `src/frontend/src/components/ChatMessage.tsx`

Two global regex replacements, run in sequence on the whole string:
`/\*\*(.*?)\*\*/g` to `<strong class="text-gold-300">$1</strong>`, then
`/\[(Bible|标步),\s*([^\]]+)\]/g` to
`<span class="text-gold-300 font-medium">[$1, $2]</span>`.
Both are embedded as left-to-right scanners over the character list, with
JS semantics: the lazy `.*?` matches no newline (no `s` flag) and takes the
shortest extension; the greedy `[^\]]+` runs to the first `]`, backtracking
`\s*` when it would otherwise be empty. -/

/-- The HTML fragments inserted by the replacements. -/
def strongOpen : List Char := "<strong class=\"text-gold-300\">".data

/-- Closing tag of the bold replacement. -/
def strongClose : List Char := "</strong>".data

/-- Opening tag of the citation replacement. -/
def spanOpen : List Char := "<span class=\"text-gold-300 font-medium\">".data

/-- Closing tag of the citation replacement. -/
def spanClose : List Char := "</span>".data


/-- The lazy part `(.*?)\*\*` of the bold regex, starting right after an
opening `**`: the shortest prefix (containing no newline, since `.` does not
match line terminators) that is followed by `**`.  Returns the captured
inner text and the remainder after the closing `**`. -/
def lazyInner : List Char → Option (List Char × List Char)
  | [] => none
  | c :: rest =>
      if c = '*' ∧ rest.head? = some '*' then some ([], rest.tail)
      else if c = '\n' then none
      else (lazyInner rest).map fun ip => (c :: ip.1, ip.2)

theorem lazyInner_eq {l i p : List Char} (h : lazyInner l = some (i, p)) :
    l = i ++ '*' :: '*' :: p ∧ '\n' ∉ i := by
  induction l generalizing i with
  | nil => simp [lazyInner] at h
  | cons c rest ih =>
    rw [lazyInner] at h
    split at h
    · rename_i hstar
      obtain ⟨hc, hh⟩ := hstar
      subst hc
      cases rest with
      | nil => simp at hh
      | cons d r2 =>
        simp only [List.head?_cons, Option.some.injEq] at hh
        subst hh
        simp only [List.tail_cons, Option.some.injEq, Prod.mk.injEq] at h
        obtain ⟨hi, hp⟩ := h
        subst hi; subst hp
        simp
    · split at h
      · simp at h
      · rename_i hnl
        match hrec : lazyInner rest with
        | none => rw [hrec] at h; simp at h
        | some (i', p') =>
          rw [hrec] at h
          simp only [Option.map_some', Option.some.injEq, Prod.mk.injEq] at h
          obtain ⟨hi, hp⟩ := h
          subst hp
          obtain ⟨hdec, hnotin⟩ := ih hrec
          subst hdec
          subst hi
          refine ⟨by simp, ?_⟩
          intro hmem
          rcases List.mem_cons.mp hmem with hh | hh
          · exact hnl hh.symm
          · exact hnotin hh

theorem lazyInner_length {l : List Char} {ip : List Char × List Char}
    (h : lazyInner l = some ip) : ip.2.length < l.length := by
  obtain ⟨i, p⟩ := ip
  obtain ⟨hdec, -⟩ := lazyInner_eq h
  subst hdec
  simp only [List.length_append, List.length_cons]
  omega

/-- The first replacement pass of `formatContent`:
`html.replace(/\*\*(.*?)\*\*/g, '<strong class="text-gold-300">$1</strong>')`.
Scan left to right; at each position, a match requires an opening `**`
followed by a lazily-matched inner text and a closing `**`; on a match the
scan resumes after the closing `**` (JS `lastIndex` semantics), otherwise it
advances one character. -/
def replaceBoldList : List Char → List Char
  | [] => []
  | c :: rest =>
      if c = '*' ∧ rest.head? = some '*' then
        match h : lazyInner rest.tail with
        | some ip => strongOpen ++ ip.1 ++ strongClose ++ replaceBoldList ip.2
        | none => '*' :: replaceBoldList rest
      else c :: replaceBoldList rest
termination_by l => l.length
decreasing_by
  · have h2 := lazyInner_length h
    have h3 : rest.tail.length ≤ rest.length := by
      cases rest <;> simp
    simp only [List.length_cons]
    omega
  · simp
  · simp

theorem replaceBoldList_nil : replaceBoldList [] = [] := by
  rw [replaceBoldList]

theorem replaceBoldList_cons (c : Char) (rest : List Char) :
    replaceBoldList (c :: rest) =
      if c = '*' ∧ rest.head? = some '*' then
        match lazyInner rest.tail with
        | some ip => strongOpen ++ ip.1 ++ strongClose ++ replaceBoldList ip.2
        | none => '*' :: replaceBoldList rest
      else c :: replaceBoldList rest := by
  rw [replaceBoldList]
  by_cases hc : c = '*' ∧ rest.head? = some '*'
  · simp only [if_pos hc]
    cases hli : lazyInner rest.tail <;> simp [hli]
  · simp only [if_neg hc]

/-- The alternation-and-comma prefix `(Bible|标步),` of the citation regex:
if the text begins with `Bible,` or `标步,`, return the captured name and
the remainder after the comma. -/
def matchCiteName (l : List Char) : Option (List Char × List Char) :=
  if "Bible,".data.isPrefixOf l then some ("Bible".data, l.drop 6)
  else if "标步,".data.isPrefixOf l then some ("标步".data, l.drop 3)
  else none

theorem matchCiteName_eq {l name t : List Char}
    (h : matchCiteName l = some (name, t)) :
    (name = "Bible".data ∨ name = "标步".data) ∧ l = name ++ ',' :: t := by
  unfold matchCiteName at h
  split at h
  · rename_i hpre
    simp only [Option.some.injEq, Prod.mk.injEq] at h
    obtain ⟨hn, ht⟩ := h
    subst hn; subst ht
    refine ⟨Or.inl rfl, ?_⟩
    rw [List.isPrefixOf_iff_prefix] at hpre
    obtain ⟨t', ht'⟩ := hpre
    rw [← ht']
    simp [String.data]
  · split at h
    · rename_i hpre
      simp only [Option.some.injEq, Prod.mk.injEq] at h
      obtain ⟨hn, ht⟩ := h
      subst hn; subst ht
      refine ⟨Or.inr rfl, ?_⟩
      rw [List.isPrefixOf_iff_prefix] at hpre
      obtain ⟨t', ht'⟩ := hpre
      rw [← ht']
      simp [String.data]
    · simp at h

theorem matchCiteName_length {l : List Char} {nt : List Char × List Char}
    (h : matchCiteName l = some nt) : nt.2.length < l.length := by
  obtain ⟨name, t⟩ := nt
  obtain ⟨-, hdec⟩ := matchCiteName_eq h
  subst hdec
  simp only [List.length_append, List.length_cons]
  omega

/-- The greedy `([^\]]+)\]` tail of the citation regex: the characters up to
the first `]` (all of them not `]`), and the remainder after that `]`;
`none` when no `]` follows. -/
def untilRB : List Char → Option (List Char × List Char)
  | [] => none
  | c :: r =>
      if c = ']' then some ([], r)
      else (untilRB r).map fun up => (c :: up.1, up.2)

theorem untilRB_eq {l u p : List Char} (h : untilRB l = some (u, p)) :
    l = u ++ ']' :: p ∧ ']' ∉ u := by
  induction l generalizing u with
  | nil => simp [untilRB] at h
  | cons c r ih =>
    rw [untilRB] at h
    split at h
    · rename_i hc
      subst hc
      simp only [Option.some.injEq, Prod.mk.injEq] at h
      obtain ⟨hu, hp⟩ := h
      subst hu; subst hp
      simp
    · rename_i hc
      match hrec : untilRB r with
      | none => rw [hrec] at h; simp at h
      | some (u', p') =>
        rw [hrec] at h
        simp only [Option.map_some', Option.some.injEq, Prod.mk.injEq] at h
        obtain ⟨hu, hp⟩ := h
        subst hp
        obtain ⟨hdec, hnotin⟩ := ih hrec
        subst hdec
        subst hu
        refine ⟨by simp, ?_⟩
        intro hmem
        rcases List.mem_cons.mp hmem with hh | hh
        · exact hc hh.symm
        · exact hnotin hh

theorem untilRB_length {l : List Char} {up : List Char × List Char}
    (h : untilRB l = some up) : up.2.length < l.length := by
  obtain ⟨u, p⟩ := up
  obtain ⟨hdec, -⟩ := untilRB_eq h
  subst hdec
  simp only [List.length_append, List.length_cons]
  omega

/-- The interplay of `\s*` (greedy) and `([^\]]+)` (needs at least one
character) on the span `u` between the comma and the `]`: the whitespace run
is maximal, except that when all of `u` is whitespace the `\s*` part
backtracks one character so the capture is nonempty.  Returns
`(whitespace-part, $2-capture)`; only used with `u ≠ []`. -/
def splitWs (u : List Char) : List Char × List Char :=
  let w := u.takeWhile jsWhitespace
  if w.length = u.length then (u.take (u.length - 1), u.drop (u.length - 1))
  else (w, u.drop w.length)


/-- Whether the citation regex matches right after a `[`: the name
alternation and comma, then (for `\s*([^\]]+)`) a nonempty span `u` of
non-`]` characters up to the closing `]`.  Returns the captured name, the
span `u`, and the remainder after the `]`. -/
def citeMatch (rest : List Char) : Option (List Char × List Char × List Char) :=
  match matchCiteName rest with
  | some nt =>
      match untilRB nt.2 with
      | some up => if up.1 = [] then none else some (nt.1, up.1, up.2)
      | none => none
  | none => none

theorem citeMatch_eq {rest : List Char} {nup : List Char × List Char × List Char}
    (h : citeMatch rest = some nup) :
    (nup.1 = "Bible".data ∨ nup.1 = "标步".data) ∧ nup.2.1 ≠ [] ∧ ']' ∉ nup.2.1 ∧
      rest = nup.1 ++ ',' :: (nup.2.1 ++ ']' :: nup.2.2) := by
  unfold citeMatch at h
  split at h
  · rename_i nt hn
    split at h
    · rename_i up hu
      split at h
      · simp at h
      · rename_i hne
        simp only [Option.some.injEq] at h
        subst h
        obtain ⟨hname, hrest⟩ := matchCiteName_eq hn
        obtain ⟨ht, hnotin⟩ := untilRB_eq hu
        exact ⟨hname, hne, hnotin, by simp [hrest, ht]⟩
    · simp at h
  · simp at h

theorem citeMatch_length {rest : List Char} {nup : List Char × List Char × List Char}
    (h : citeMatch rest = some nup) : nup.2.2.length < rest.length := by
  obtain ⟨-, -, -, hdec⟩ := citeMatch_eq h
  rw [hdec]
  simp only [List.length_append, List.length_cons]
  omega

/-- The second replacement pass of `formatContent`:
`html.replace(/\[(Bible|标步),\s*([^\]]+)\]/g,
'<span class="text-gold-300 font-medium">[$1, $2]</span>')`, as a
left-to-right scan; on a match the scan resumes after the closing `]`,
otherwise it advances one character. -/
def replaceCiteList : List Char → List Char
  | [] => []
  | c :: rest =>
      if c = '[' then
        match h : citeMatch rest with
        | some nup =>
            spanOpen ++ '[' :: (nup.1 ++ ',' :: ' ' ::
              ((splitWs nup.2.1).2 ++ ']' :: spanClose)) ++ replaceCiteList nup.2.2
        | none => '[' :: replaceCiteList rest
      else c :: replaceCiteList rest
termination_by l => l.length
decreasing_by
  · have h2 := citeMatch_length h
    simp only [List.length_cons]
    omega
  · simp
  · simp

theorem replaceCiteList_nil : replaceCiteList [] = [] := by
  rw [replaceCiteList]

theorem replaceCiteList_cons (c : Char) (rest : List Char) :
    replaceCiteList (c :: rest) =
      if c = '[' then
        match citeMatch rest with
        | some nup =>
            spanOpen ++ '[' :: (nup.1 ++ ',' :: ' ' ::
              ((splitWs nup.2.1).2 ++ ']' :: spanClose)) ++ replaceCiteList nup.2.2
        | none => '[' :: replaceCiteList rest
      else c :: replaceCiteList rest := by
  rw [replaceCiteList]
  by_cases hc : c = '['
  · simp only [if_pos hc]
    cases hm : citeMatch rest <;> simp [hm]
  · simp only [if_neg hc]

/-- `formatContent` from `ChatMessage.tsx`: the bold pass, then the citation
pass, over the whole string. -/
def formatContent (s : String) : String :=
  ⟨replaceCiteList (replaceBoldList s.data)⟩

/-- The text contains a `**…**` pair: an opening `**` with a later closing
`**`. -/
def BoldPairIn (l : List Char) : Prop :=
  ∃ p m r, l = p ++ '*' :: '*' :: (m ++ '*' :: '*' :: r)

/-- The text contains a `[Bible, …]` or `[标步, …]` citation fragment (a
match of the citation regex). -/
def CiteFragIn (l : List Char) : Prop :=
  ∃ p name u r, (name = "Bible".data ∨ name = "标步".data) ∧ u ≠ [] ∧ ']' ∉ u ∧
    l = p ++ '[' :: (name ++ ',' :: (u ++ ']' :: r))

theorem boldPairIn_cons {c : Char} {l : List Char} (h : BoldPairIn l) :
    BoldPairIn (c :: l) := by
  obtain ⟨p, m, r, hl⟩ := h
  exact ⟨c :: p, m, r, by simp [hl]⟩

theorem citeFragIn_cons {c : Char} {l : List Char} (h : CiteFragIn l) :
    CiteFragIn (c :: l) := by
  obtain ⟨p, name, u, r, h1, h2, h3, hl⟩ := h
  exact ⟨c :: p, name, u, r, h1, h2, h3, by simp [hl]⟩

theorem mem_of_boldPairIn {l : List Char} (h : BoldPairIn l) : '*' ∈ l := by
  obtain ⟨p, m, r, hl⟩ := h
  subst hl
  simp

theorem mem_of_citeFragIn {l : List Char} (h : CiteFragIn l) : '[' ∈ l := by
  obtain ⟨p, name, u, r, -, -, -, hl⟩ := h
  subst hl
  simp

theorem replaceBold_id {l : List Char} (h : ¬ BoldPairIn l) :
    replaceBoldList l = l := by
  induction l using replaceBoldList.induct with
  | case1 => exact replaceBoldList_nil
  | case2 c rest hc ip hli =>
      exfalso
      apply h
      obtain ⟨hc1, hc2⟩ := hc
      subst hc1
      cases rest with
      | nil => simp at hc2
      | cons d rt =>
        simp only [List.head?_cons, Option.some.injEq] at hc2
        subst hc2
        obtain ⟨hdec, -⟩ := lazyInner_eq (l := rt) (i := ip.1) (p := ip.2)
          (by simpa using hli)
        exact ⟨[], ip.1, ip.2, by simp [hdec]⟩
  | case3 c rest hc hli ih =>
      rw [replaceBoldList_cons, if_pos hc, hli]
      obtain ⟨hc1, -⟩ := hc
      subst hc1
      rw [ih (fun hb => h (boldPairIn_cons hb))]
  | case4 c rest hc ih =>
      rw [replaceBoldList_cons, if_neg hc]
      rw [ih (fun hb => h (boldPairIn_cons hb))]

theorem replaceCite_id {l : List Char} (h : ¬ CiteFragIn l) :
    replaceCiteList l = l := by
  induction l using replaceCiteList.induct with
  | case1 => exact replaceCiteList_nil
  | case2 rest nup hm =>
      exfalso
      apply h
      obtain ⟨hname, hne, hnotin, hdec⟩ := citeMatch_eq hm
      exact ⟨[], nup.1, nup.2.1, nup.2.2, hname, hne, hnotin, by simp [hdec]⟩
  | case3 rest hm ih =>
      rw [replaceCiteList_cons, if_pos rfl, hm]
      rw [ih (fun hf => h (citeFragIn_cons hf))]
  | case4 c rest hc ih =>
      rw [replaceCiteList_cons, if_neg hc]
      rw [ih (fun hf => h (citeFragIn_cons hf))]

/-- A segment of a replacement pass's run: either a stretch of text the pass
copied verbatim, or a matched fragment `orig` that it replaced by `out`. -/
inductive Frag where
  | keep (cs : List Char)
  | subst (orig out : List Char)

/-- Concatenation of the input sides of the segments. -/
def fragsIn : List Frag → List Char
  | [] => []
  | .keep s :: fs => s ++ fragsIn fs
  | .subst o _ :: fs => o ++ fragsIn fs

/-- Concatenation of the output sides of the segments. -/
def fragsOut : List Frag → List Char
  | [] => []
  | .keep s :: fs => s ++ fragsOut fs
  | .subst _ o :: fs => o ++ fragsOut fs

/-- A segment is sound for the bold pass: replaced fragments are exactly
regex matches `**inner**` (no newline in `inner`), rewritten to the strong
tag; kept text is unconstrained (it is verbatim by `fragsIn`/`fragsOut`). -/
def BoldFragOk : Frag → Prop
  | .keep _ => True
  | .subst o out => ∃ i, o = '*' :: '*' :: (i ++ ['*', '*']) ∧ '\n' ∉ i ∧
      out = strongOpen ++ i ++ strongClose

/-- A segment is sound for the citation pass: replaced fragments are exactly
regex matches `[Name,u]`, rewritten to the span tag around
`[Name, $2]`. -/
def CiteFragOk : Frag → Prop
  | .keep _ => True
  | .subst o out => ∃ name u, (name = "Bible".data ∨ name = "标步".data) ∧
      u ≠ [] ∧ ']' ∉ u ∧
      o = '[' :: (name ++ ',' :: (u ++ [']'])) ∧
      out = spanOpen ++ '[' :: (name ++ ',' :: ' ' :: ((splitWs u).2 ++ ']' :: spanClose))

theorem bold_frags (l : List Char) :
    ∃ fs, fragsIn fs = l ∧ fragsOut fs = replaceBoldList l ∧
      ∀ f ∈ fs, BoldFragOk f := by
  induction l using replaceBoldList.induct with
  | case1 => exact ⟨[], rfl, by rw [replaceBoldList_nil]; rfl, by simp⟩
  | case2 c rest hc ip hli ih =>
      obtain ⟨fs, hin, hout, hok⟩ := ih
      obtain ⟨hc1, hc2⟩ := hc
      subst hc1
      cases rest with
      | nil => simp at hc2
      | cons d rt =>
        simp only [List.head?_cons, Option.some.injEq] at hc2
        subst hc2
        obtain ⟨hdec, hnl⟩ := lazyInner_eq (l := rt) (i := ip.1) (p := ip.2)
          (by simpa using hli)
        refine ⟨.subst ('*' :: '*' :: (ip.1 ++ ['*', '*']))
          (strongOpen ++ ip.1 ++ strongClose) :: fs, ?_, ?_, ?_⟩
        · simp [fragsIn, hin, hdec]
        · rw [replaceBoldList_cons, if_pos ⟨rfl, rfl⟩]
          simp only [List.tail_cons]
          rw [show lazyInner rt = some ip from hli]
          simp [fragsOut, hout]
        · intro f hf
          rcases List.mem_cons.mp hf with hh | hh
          · subst hh
            exact ⟨ip.1, rfl, hnl, rfl⟩
          · exact hok f hh
  | case3 c rest hc hli ih =>
      obtain ⟨fs, hin, hout, hok⟩ := ih
      have hc1 := hc.1
      subst hc1
      refine ⟨.keep ['*'] :: fs, by simp [fragsIn, hin], ?_, ?_⟩
      · rw [replaceBoldList_cons, if_pos hc, hli]
        simp [fragsOut, hout]
      · intro f hf
        rcases List.mem_cons.mp hf with hh | hh
        · subst hh; trivial
        · exact hok f hh
  | case4 c rest hc ih =>
      obtain ⟨fs, hin, hout, hok⟩ := ih
      refine ⟨.keep [c] :: fs, by simp [fragsIn, hin], ?_, ?_⟩
      · rw [replaceBoldList_cons, if_neg hc]
        simp [fragsOut, hout]
      · intro f hf
        rcases List.mem_cons.mp hf with hh | hh
        · subst hh; trivial
        · exact hok f hh

theorem cite_frags (l : List Char) :
    ∃ fs, fragsIn fs = l ∧ fragsOut fs = replaceCiteList l ∧
      ∀ f ∈ fs, CiteFragOk f := by
  induction l using replaceCiteList.induct with
  | case1 => exact ⟨[], rfl, by rw [replaceCiteList_nil]; rfl, by simp⟩
  | case2 rest nup hm ih =>
      obtain ⟨fs, hin, hout, hok⟩ := ih
      obtain ⟨hname, hne, hnotin, hdec⟩ := citeMatch_eq hm
      refine ⟨.subst ('[' :: (nup.1 ++ ',' :: (nup.2.1 ++ [']'])))
        (spanOpen ++ '[' :: (nup.1 ++ ',' :: ' ' ::
          ((splitWs nup.2.1).2 ++ ']' :: spanClose))) :: fs, ?_, ?_, ?_⟩
      · simp [fragsIn, hin, hdec]
      · rw [replaceCiteList_cons, if_pos rfl, hm]
        simp [fragsOut, hout]
      · intro f hf
        rcases List.mem_cons.mp hf with hh | hh
        · subst hh
          exact ⟨nup.1, nup.2.1, hname, hne, hnotin, rfl, rfl⟩
        · exact hok f hh
  | case3 rest hm ih =>
      obtain ⟨fs, hin, hout, hok⟩ := ih
      refine ⟨.keep ['['] :: fs, by simp [fragsIn, hin], ?_, ?_⟩
      · rw [replaceCiteList_cons, if_pos rfl, hm]
        simp [fragsOut, hout]
      · intro f hf
        rcases List.mem_cons.mp hf with hh | hh
        · subst hh; trivial
        · exact hok f hh
  | case4 c rest hc ih =>
      obtain ⟨fs, hin, hout, hok⟩ := ih
      refine ⟨.keep [c] :: fs, by simp [fragsIn, hin], ?_, ?_⟩
      · rw [replaceCiteList_cons, if_neg hc]
        simp [fragsOut, hout]
      · intro f hf
        rcases List.mem_cons.mp hf with hh | hh
        · subst hh; trivial
        · exact hok f hh

/-! ## `SettingsPanel` from `src/unnamed/part_001` -/

/-- The keys of `UserPreferences` (`keyof UserPreferences`). -/
inductive PrefKey where
  | translation_kr
  | translation_en
  | denomination
  deriving DecidableEq

/-- The TS type of the value stored under each key. -/
def PrefKey.Val : PrefKey → Type
  | .translation_kr => String
  | .translation_en => String
  | .denomination => Option String

/-- `SettingsPanel.update`: `onChange({ ...preferences, [key]: value })` —
spread the old preferences and overwrite the one field. -/
def SettingsPanel.update (p : UserPreferences) : (k : PrefKey) → k.Val → UserPreferences
  | .translation_kr, v => { p with translation_kr := v }
  | .translation_en, v => { p with translation_en := v }
  | .denomination, v => { p with denomination := v }

/-- The denomination select's onChange:
`update("denomination", e.target.value || null)` — the empty string is falsy,
so the empty option stores null. -/
def denominationOnChange (p : UserPreferences) (raw : String) : UserPreferences :=
  SettingsPanel.update p .denomination (if raw = "" then none else some raw)

/-- The onChange of the two translation selects:
`update("translation_kr" | "translation_en", e.target.value)`. -/
def translationKrOnChange (p : UserPreferences) (raw : String) : UserPreferences :=
  SettingsPanel.update p .translation_kr raw

/-- See `translationKrOnChange`. -/
def translationEnOnChange (p : UserPreferences) (raw : String) : UserPreferences :=
  SettingsPanel.update p .translation_en raw

/-! ## Claim theorems -/

/-- C1: The transport-level chat entry point takes a message, an optional
session id, and preferences, and returns a result containing the answer
text, the session id, the sources, and the mode: `sendMessage` is invoked
with a `ChatRequest` built from exactly those three inputs, and on an ok
reply yields a `ChatResponse` carrying the answer text (`response`), the
session id, the sources, and the retrieval mode. -/
theorem c1_chat_entry_point (message : String) (sid : Option String)
    (prefs : UserPreferences) (body : ChatResponse) :
    ∃ r : ChatResponse,
      sendMessage { message := message, session_id := sid, preferences := prefs }
        (.ok body) = .ok r ∧
      r.response = body.response ∧ r.session_id = body.session_id ∧
      r.sources = body.sources ∧ r.retrieval_mode = body.retrieval_mode :=
  ⟨body, rfl, rfl, rfl, rfl, rfl⟩

/-- C2 (counterexample): the claim names the two reported mode values
`grounded` and `ungrounded`, but a well-typed response reports `"rag"` or
`"conversational"` — neither reported value ever equals `"grounded"` or
`"ungrounded"`. -/
theorem c2_mode_values_counterexample :
    ({ response := "For God so loved the world…", session_id := "s1",
       language := "en", sources := [], retrieval_mode := .rag,
       model := "m", usage := { input_tokens := 1, output_tokens := 1 } }
      : ChatResponse).retrieval_mode.wire ≠ "grounded" ∧
    ({ response := "For God so loved the world…", session_id := "s1",
       language := "en", sources := [], retrieval_mode := .rag,
       model := "m", usage := { input_tokens := 1, output_tokens := 1 } }
      : ChatResponse).retrieval_mode.wire ≠ "ungrounded" ∧
    RetrievalMode.rag.wire ≠ "grounded" ∧
    RetrievalMode.rag.wire ≠ "ungrounded" ∧
    RetrievalMode.conversational.wire ≠ "grounded" ∧
    RetrievalMode.conversational.wire ≠ "ungrounded" := by
  refine ⟨?_, ?_, ?_, ?_, ?_, ?_⟩ <;> decide

/-- C2 (amended): for every query, the retrieval mode reported with the
answer is one of exactly two values, `"rag"` (the grounded state) or
`"conversational"` (the ungrounded state), and the two are distinct. -/
theorem c2_mode_values (r : ChatResponse) :
    (r.retrieval_mode.wire = "rag" ∨ r.retrieval_mode.wire = "conversational") ∧
    ("rag" : String) ≠ "conversational" := by
  refine ⟨?_, by decide⟩
  cases hr : r.retrieval_mode <;> simp [RetrievalMode.wire]

/-- C4: clearing a session never raises an error: the frontend
`clearSession` ignores the server's reply outright, so it succeeds for
every session id and every reply status — in particular for 404 (session
unknown) and for a second call in a row — and the (spec-modelled) Session
Manager `clear` is total, idempotent, and leaves the cleared session with
empty history. -/
theorem c4_clear_idempotent :
    (∀ (sid : String) (status₁ status₂ : Nat) (ok₁ ok₂ : Bool),
      clearSession sid status₁ ok₁ = Except.ok () ∧
      clearSession sid status₂ ok₂ = Except.ok ()) ∧
    (∀ (st : SessionStore) (i : Nat),
      clear (clear st i) i = clear st i ∧ history (clear st i) i = []) := by
  refine ⟨fun _ _ _ _ _ => ⟨rfl, rfl⟩, fun st i => ⟨?_, ?_⟩⟩
  · show SessionStore.mk _ _ = SessionStore.mk _ _
    have : (fun j => if j = i then none
              else (fun j => if j = i then none else st.sessions j) j)
        = (fun j => if j = i then none else st.sessions j) := by
      funext j
      by_cases hj : j = i <;> simp [hj]
    simpa [clear] using congrArg (fun f => SessionStore.mk f st.nextId) this
  · simp [clear, history]

/-- C10: updating a single preference field through the settings panel
leaves every other preference field unchanged, and selecting the empty
denomination option stores null (`none`), not the empty string, while a
nonempty selection stores that value. -/
theorem c10_preferences_update :
    (∀ (p : UserPreferences) (v : String),
      (translationKrOnChange p v).translation_kr = v ∧
      (translationKrOnChange p v).translation_en = p.translation_en ∧
      (translationKrOnChange p v).denomination = p.denomination) ∧
    (∀ (p : UserPreferences) (v : String),
      (translationEnOnChange p v).translation_en = v ∧
      (translationEnOnChange p v).translation_kr = p.translation_kr ∧
      (translationEnOnChange p v).denomination = p.denomination) ∧
    (∀ (p : UserPreferences) (v : Option String),
      (SettingsPanel.update p .denomination v).denomination = v ∧
      (SettingsPanel.update p .denomination v).translation_kr = p.translation_kr ∧
      (SettingsPanel.update p .denomination v).translation_en = p.translation_en) ∧
    (∀ p : UserPreferences, (denominationOnChange p "").denomination = none) ∧
    (∀ (p : UserPreferences) (s : String), s ≠ "" →
      (denominationOnChange p s).denomination = some s) := by
  refine ⟨fun p v => ⟨rfl, rfl, rfl⟩, fun p v => ⟨rfl, rfl, rfl⟩,
    fun p v => ⟨rfl, rfl, rfl⟩, fun p => rfl, fun p s hs => ?_⟩
  simp [denominationOnChange, SettingsPanel.update, hs]

/-- Witness for C10 at a concrete input: selecting "Baptist" stores it. -/
theorem c10_preferences_update_witness :
    (denominationOnChange initialClientState.preferences "Baptist").denomination
      = some "Baptist" :=
  c10_preferences_update.2.2.2.2 initialClientState.preferences "Baptist" (by decide)

theorem startSend_open {st : ClientState} {text : String} (uid : String) (t1 : Nat)
    (htext : jsTrim text ≠ "") (hload : st.isLoading = false) :
    startSend st text uid t1 =
      ({ st with
          error := none,
          messages := st.messages ++ [userMessageOf (jsTrim text) uid t1],
          isLoading := true },
        some { message := jsTrim text, session_id := st.sessionId,
               preferences := st.preferences }) := by
  unfold startSend
  rw [if_neg]
  simp [htext, hload]

theorem handleSend_ok (st : ClientState) (text : String) (r : ChatResponse)
    (uid aid : String) (t1 t2 : Nat)
    (htext : jsTrim text ≠ "") (hload : st.isLoading = false) :
    handleSend st text (.ok r) uid aid t1 t2 =
      ⟨{ st with
           error := none,
           sessionId := some r.session_id,
           messages := st.messages ++
             [userMessageOf (jsTrim text) uid t1, assistantMessageOf r aid t2],
           isLoading := false },
        some { message := jsTrim text, session_id := st.sessionId,
               preferences := st.preferences }⟩ := by
  unfold handleSend
  rw [startSend_open uid t1 htext hload]
  simp [sendMessage, finishSend]

theorem handleSend_err (st : ClientState) (text : String) (status : Nat)
    (detail uid aid : String) (t1 t2 : Nat)
    (htext : jsTrim text ≠ "") (hload : st.isLoading = false) :
    handleSend st text (.err status detail) uid aid t1 t2 =
      ⟨{ st with
           error := some (displayError
             ("Server error " ++ toString status ++ ": " ++ detail)),
           messages := st.messages ++ [userMessageOf (jsTrim text) uid t1],
           isLoading := false },
        some { message := jsTrim text, session_id := st.sessionId,
               preferences := st.preferences }⟩ := by
  unfold handleSend
  rw [startSend_open uid t1 htext hload]
  simp [sendMessage, finishSend]

/-- C3: a failing chat HTTP call is surfaced, never masked: `sendMessage`
throws an error carrying the status and the response detail, the UI stores
that error for display, and the only message appended to the conversation is
the user's own turn — no assistant message is produced. -/
theorem c3_http_error_surfaced (st : ClientState) (text : String) (status : Nat)
    (detail uid aid : String) (t1 t2 : Nat)
    (htext : jsTrim text ≠ "") (hload : st.isLoading = false) :
    sendMessage { message := jsTrim text, session_id := st.sessionId,
                  preferences := st.preferences } (.err status detail)
      = Except.error ("Server error " ++ toString status ++ ": " ++ detail) ∧
    (handleSend st text (.err status detail) uid aid t1 t2).state.error
      = some (displayError ("Server error " ++ toString status ++ ": " ++ detail)) ∧
    (handleSend st text (.err status detail) uid aid t1 t2).state.messages
      = st.messages ++ [userMessageOf (jsTrim text) uid t1] ∧
    (userMessageOf (jsTrim text) uid t1).role = .user ∧
    ((handleSend st text (.err status detail) uid aid t1 t2).state.messages.filter
        (fun m => m.role == Role.assistant))
      = st.messages.filter (fun m => m.role == Role.assistant) := by
  rw [handleSend_err st text status detail uid aid t1 t2 htext hload]
  refine ⟨rfl, rfl, rfl, rfl, ?_⟩
  simp [List.filter_append, userMessageOf]

/-- Witness for C3: a concrete 500 reply to the first message leaves an
error displayed, the user turn recorded, and no assistant message. -/
theorem c3_http_error_surfaced_witness :
    sendMessage { message := jsTrim "hello", session_id := initialClientState.sessionId,
                  preferences := initialClientState.preferences } (.err 500 "boom")
      = Except.error ("Server error " ++ toString 500 ++ ": " ++ "boom") ∧
    (handleSend initialClientState "hello" (.err 500 "boom") "u1" "a1" 0 1).state.error
      = some (displayError ("Server error " ++ toString 500 ++ ": " ++ "boom")) ∧
    (handleSend initialClientState "hello" (.err 500 "boom") "u1" "a1" 0 1).state.messages
      = initialClientState.messages ++ [userMessageOf (jsTrim "hello") "u1" 0] ∧
    (userMessageOf (jsTrim "hello") "u1" 0).role = .user ∧
    ((handleSend initialClientState "hello" (.err 500 "boom") "u1" "a1" 0 1).state.messages.filter
        (fun m => m.role == Role.assistant))
      = initialClientState.messages.filter (fun m => m.role == Role.assistant) :=
  c3_http_error_surfaced initialClientState "hello" 500 "boom" "u1" "a1" 0 1
    (by decide) (by decide)

/-- C5: session allocation is forgiving and the client threads ids
correctly: the client starts with a null session id, every issued request
carries the client's current session id, a successful response's session id
becomes the current one, and the (spec-modelled) Session Manager, given an
omitted or unknown id, allocates a fresh session (an id not previously in
the store) with empty history — never an error. -/
theorem c5_session_allocation :
    initialClientState.sessionId = none ∧
    (∀ (st : ClientState) (text uid : String) (t1 : Nat)
        (st' : ClientState) (req : ChatRequest),
      startSend st text uid t1 = (st', some req) → req.session_id = st.sessionId) ∧
    (∀ (st : ClientState) (text : String) (r : ChatResponse) (uid aid : String)
        (t1 t2 : Nat), jsTrim text ≠ "" → st.isLoading = false →
      (handleSend st text (.ok r) uid aid t1 t2).state.sessionId
        = some r.session_id) ∧
    (∀ (store : SessionStore) (sid : Option Nat), StoreInv store →
      (sid = none ∨ ∃ i, sid = some i ∧ store.sessions i = none) →
      store.sessions (getOrCreate store sid).1 = none ∧
      history (getOrCreate store sid).2 (getOrCreate store sid).1 = []) := by
  refine ⟨rfl, ?_, ?_, ?_⟩
  · intro st text uid t1 st' req h
    unfold startSend at h
    split at h
    · simp at h
    · simp only [Prod.mk.injEq, Option.some.injEq] at h
      rw [← h.2]
  · intro st text r uid aid t1 t2 htext hload
    rw [handleSend_ok st text r uid aid t1 t2 htext hload]
  · intro store sid hinv hsid
    have hfresh :
        store.sessions (getOrCreate store none).1 = none ∧
        history (getOrCreate store none).2 (getOrCreate store none).1 = [] := by
      refine ⟨hinv store.nextId le_rfl, ?_⟩
      simp [getOrCreate, history]
    rcases hsid with hnone | ⟨i, hsome, hni⟩
    · subst hnone
      exact hfresh
    · subst hsome
      have hred : getOrCreate store (some i) = getOrCreate store none := by
        simp [getOrCreate, hni]
      rw [hred]
      exact hfresh

/-- Witness for C5 at concrete inputs: the first reply's session id is
adopted by the client, and `getOrCreate` on the empty store with no id
yields a fresh empty session. -/
theorem c5_session_allocation_witness :
    (handleSend initialClientState "hi"
      (.ok { response := "hello", session_id := "s7", language := "en",
             sources := [], retrieval_mode := .conversational, model := "m",
             usage := { input_tokens := 1, output_tokens := 1 } })
      "u1" "a1" 0 1).state.sessionId = some "s7" ∧
    emptyStore.sessions (getOrCreate emptyStore none).1 = none ∧
    history (getOrCreate emptyStore none).2 (getOrCreate emptyStore none).1 = [] := by
  refine ⟨c5_session_allocation.2.2.1 initialClientState "hi" _ "u1" "a1" 0 1
    (by decide) (by decide), ?_, ?_⟩
  · exact (c5_session_allocation.2.2.2 emptyStore none (fun i _ => rfl)
      (Or.inl rfl)).1
  · exact (c5_session_allocation.2.2.2 emptyStore none (fun i _ => rfl)
      (Or.inl rfl)).2

/-- C8: sending is a guarded no-op and requests cannot overlap: when the
trimmed text is empty or a request is in flight (`isLoading`), `handleSend`
changes no state and issues no request; a request is only ever issued from a
non-loading state and issuing it sets the loading flag, so at most one chat
request is in flight at a time; the `ChatInput` guard likewise drops empty
or disabled sends. -/
theorem c8_send_guard :
    (∀ (st : ClientState) (text uid : String) (t1 : Nat),
      jsTrim text = "" ∨ st.isLoading = true →
      startSend st text uid t1 = (st, none)) ∧
    (∀ (st : ClientState) (text : String) (reply : HttpReply)
        (uid aid : String) (t1 t2 : Nat),
      jsTrim text = "" ∨ st.isLoading = true →
      handleSend st text reply uid aid t1 t2 = ⟨st, none⟩) ∧
    (∀ (st : ClientState) (text uid : String) (t1 : Nat)
        (st' : ClientState) (req : ChatRequest),
      startSend st text uid t1 = (st', some req) →
      st.isLoading = false ∧ st'.isLoading = true) ∧
    (∀ raw : String, chatInputSend raw true = none) ∧
    (∀ (raw : String) (disabled : Bool), jsTrim raw = "" →
      chatInputSend raw disabled = none) := by
  have hstart : ∀ (st : ClientState) (text uid : String) (t1 : Nat),
      jsTrim text = "" ∨ st.isLoading = true →
      startSend st text uid t1 = (st, none) := by
    intro st text uid t1 h
    unfold startSend
    rw [if_pos h]
  refine ⟨hstart, ?_, ?_, ?_, ?_⟩
  · intro st text reply uid aid t1 t2 h
    unfold handleSend
    rw [hstart st text uid t1 h]
  · intro st text uid t1 st' req h
    unfold startSend at h
    split at h
    · simp at h
    · rename_i hcond
      push_neg at hcond
      simp only [Prod.mk.injEq, Option.some.injEq] at h
      refine ⟨Bool.not_eq_true _ ▸ hcond.2, ?_⟩
      rw [← h.1]
  · intro raw
    unfold chatInputSend
    rw [if_pos (Or.inr rfl)]
  · intro raw disabled h
    unfold chatInputSend
    rw [if_pos (Or.inl h)]

/-- Witness for C8: an all-whitespace input is dropped without any state
change or request, and the disabled input drops a nonempty send. -/
theorem c8_send_guard_witness :
    handleSend initialClientState "   " (.err 500 "boom") "u1" "a1" 0 1
      = ⟨initialClientState, none⟩ ∧
    chatInputSend "hello" true = none := by
  refine ⟨c8_send_guard.2.1 initialClientState "   " (.err 500 "boom")
    "u1" "a1" 0 1 (Or.inl (by decide)), c8_send_guard.2.2.2.1 "hello"⟩

/-- C6: history is strict chronological append: on the client, each
successful exchange appends exactly one user message then one assistant
message, so two exchanges starting from an empty conversation leave exactly
4 messages in order; in the (spec-modelled) engine, the second exchange's
generation request already carries both turns of the first exchange, and the
session holds 4 turns after two exchanges. -/
theorem c6_history_append (st0 : ClientState) (m1 m2 uid1 aid1 uid2 aid2 : String)
    (t1 t2 t3 t4 : Nat) (r1 r2 : ChatResponse)
    (store : SessionStore) (u1 a1 u2 a2 : String) (mode1 mode2 : RetrievalMode)
    (srcs1 srcs2 : List Source) (tu1 ta1 tu2 ta2 : Nat)
    (h1 : jsTrim m1 ≠ "") (h2 : jsTrim m2 ≠ "") (h0 : st0.isLoading = false) :
    (handleSend (handleSend st0 m1 (.ok r1) uid1 aid1 t1 t2).state
        m2 (.ok r2) uid2 aid2 t3 t4).state.messages
      = st0.messages ++
        [userMessageOf (jsTrim m1) uid1 t1, assistantMessageOf r1 aid1 t2,
         userMessageOf (jsTrim m2) uid2 t3, assistantMessageOf r2 aid2 t4] ∧
    (st0.messages = [] →
      (handleSend (handleSend st0 m1 (.ok r1) uid1 aid1 t1 t2).state
          m2 (.ok r2) uid2 aid2 t3 t4).state.messages.length = 4) ∧
    (engineChat (engineChat store none u1 a1 mode1 srcs1 tu1 ta1).2
        (some (engineChat store none u1 a1 mode1 srcs1 tu1 ta1).1.sessionId)
        u2 a2 mode2 srcs2 tu2 ta2).1.promptHistory
      = [⟨.user, u1, [], mode1, tu1⟩,
         ⟨.assistant, a1, attachedSources mode1 srcs1, mode1, ta1⟩] ∧
    (history
        (engineChat (engineChat store none u1 a1 mode1 srcs1 tu1 ta1).2
          (some (engineChat store none u1 a1 mode1 srcs1 tu1 ta1).1.sessionId)
          u2 a2 mode2 srcs2 tu2 ta2).2
        (engineChat store none u1 a1 mode1 srcs1 tu1 ta1).1.sessionId).length
      = 4 := by
  have hmsgs :
      (handleSend (handleSend st0 m1 (.ok r1) uid1 aid1 t1 t2).state
          m2 (.ok r2) uid2 aid2 t3 t4).state.messages
        = st0.messages ++
          [userMessageOf (jsTrim m1) uid1 t1, assistantMessageOf r1 aid1 t2,
           userMessageOf (jsTrim m2) uid2 t3, assistantMessageOf r2 aid2 t4] := by
    rw [handleSend_ok st0 m1 r1 uid1 aid1 t1 t2 h1 h0]
    rw [handleSend_ok _ m2 r2 uid2 aid2 t3 t4 h2 rfl]
    simp
  refine ⟨hmsgs, ?_, ?_, ?_⟩
  · intro hempty
    rw [hmsgs, hempty]
    rfl
  · simp [engineChat, getOrCreate, history, appendTurn]
  · simp [engineChat, getOrCreate, history, appendTurn]

/-- Witness for C6 at concrete inputs: two exchanges from the initial state
leave the 4 messages in order, and the concrete engine run from the empty
store carries both first-exchange turns into the second request. -/
theorem c6_history_append_witness :
    (handleSend (handleSend initialClientState "hi"
        (.ok { response := "hello", session_id := "s1", language := "en",
               sources := [], retrieval_mode := .conversational, model := "m",
               usage := { input_tokens := 1, output_tokens := 1 } })
        "u1" "a1" 0 1).state
      "and then"
      (.ok { response := "indeed", session_id := "s1", language := "en",
             sources := [], retrieval_mode := .conversational, model := "m",
             usage := { input_tokens := 1, output_tokens := 1 } })
      "u2" "a2" 2 3).state.messages
      = initialClientState.messages ++
        [userMessageOf (jsTrim "hi") "u1" 0,
         assistantMessageOf { response := "hello", session_id := "s1",
                              language := "en", sources := [],
                              retrieval_mode := .conversational, model := "m",
                              usage := { input_tokens := 1, output_tokens := 1 } }
           "a1" 1,
         userMessageOf (jsTrim "and then") "u2" 2,
         assistantMessageOf { response := "indeed", session_id := "s1",
                              language := "en", sources := [],
                              retrieval_mode := .conversational, model := "m",
                              usage := { input_tokens := 1, output_tokens := 1 } }
           "a2" 3] ∧
    (engineChat (engineChat emptyStore none "hi" "hello" .conversational [] 0 1).2
        (some (engineChat emptyStore none "hi" "hello" .conversational [] 0 1).1.sessionId)
        "and then" "indeed" .conversational [] 2 3).1.promptHistory
      = [⟨.user, "hi", [], .conversational, 0⟩,
         ⟨.assistant, "hello", attachedSources .conversational [], .conversational, 1⟩] := by
  have h := c6_history_append initialClientState "hi" "and then" "u1" "a1" "u2" "a2"
    0 1 2 3
    { response := "hello", session_id := "s1", language := "en",
      sources := [], retrieval_mode := .conversational, model := "m",
      usage := { input_tokens := 1, output_tokens := 1 } }
    { response := "indeed", session_id := "s1", language := "en",
      sources := [], retrieval_mode := .conversational, model := "m",
      usage := { input_tokens := 1, output_tokens := 1 } }
    emptyStore "hi" "hello" "and then" "indeed"
    .conversational .conversational [] [] 0 1 2 3
    (by decide) (by decide) (by decide)
  exact ⟨h.1, h.2.2.1⟩

/-- C7: an ungrounded turn carries zero sources and renders no source list:
the (spec-modelled) Response Assembler attaches no source metadata in
`conversational` (ungrounded) mode, and `ChatMessage` renders the source
chip list only when a nonempty source list is present. -/
theorem c7_ungrounded_no_sources :
    (∀ retrieved : List Source, attachedSources .conversational retrieved = []) ∧
    (∀ (store : SessionStore) (sid : Option Nat) (msg ans : String)
        (retrieved : List Source) (tu ta : Nat),
      (engineChat store sid msg ans .conversational retrieved tu ta).1.sources = []) ∧
    (∀ m : Message, m.sources = none ∨ m.sources = some [] →
      rendersSourceList m = false) := by
  refine ⟨fun _ => rfl, fun _ _ _ _ _ _ _ => rfl, ?_⟩
  intro m hm
  rcases hm with hm | hm <;> simp [rendersSourceList, hm]

/-- Witness for C7: a concrete assistant message of an ungrounded turn
renders no source list. -/
theorem c7_ungrounded_no_sources_witness :
    rendersSourceList
      { id := "a1", role := .assistant, content := "hello", timestamp := 1,
        sources := some [], retrieval_mode := some .conversational } = false :=
  c7_ungrounded_no_sources.2.2
    { id := "a1", role := .assistant, content := "hello", timestamp := 1,
      sources := some [], retrieval_mode := some .conversational }
    (Or.inr rfl)

/-- C9: `formatContent` is a pure deterministic function (a function of its
argument alone in this embedding); it is the identity on every input
containing no `**…**` pair and no `[Bible, …]` or `[标步, …]` citation
fragment; and for every input, each pass decomposes its input into verbatim
segments and matched regex fragments so that all text outside matched
fragments is preserved unchanged in the output. -/
theorem c9_formatContent (s : String) :
    (¬ BoldPairIn s.data → ¬ CiteFragIn s.data → formatContent s = s) ∧
    (∃ fs, fragsIn fs = s.data ∧ fragsOut fs = replaceBoldList s.data ∧
      ∀ f ∈ fs, BoldFragOk f) ∧
    (∃ fs, fragsIn fs = replaceBoldList s.data ∧
      fragsOut fs = (formatContent s).data ∧ ∀ f ∈ fs, CiteFragOk f) := by
  refine ⟨?_, bold_frags s.data, ?_⟩
  · intro hb hc
    show (⟨replaceCiteList (replaceBoldList s.data)⟩ : String) = s
    rw [replaceBold_id hb, replaceCite_id hc]
  · exact cite_frags (replaceBoldList s.data)

/-- Witness for C9: a plain text without stars or brackets is returned
verbatim. -/
theorem c9_formatContent_witness :
    formatContent "For God so loved the world" = "For God so loved the world" :=
  (c9_formatContent "For God so loved the world").1
    (fun hb => absurd (mem_of_boldPairIn hb) (by decide))
    (fun hc => absurd (mem_of_citeFragIn hc) (by decide))
